import Mathlib

/-! eve-mailbackup: a shallow embedding of `main.go`

The program logs in, resolves a character, pages through the mail-list
endpoint, and for every header fetches the mail and writes it to a file.

Modelling conventions.

* Go `int` values (mail ids, character ids, sender ids) are `Int`.  The program
  only compares and prints them, it never does arithmetic on them, so no
  wrap-around can occur.
* Everything the program does to the outside world is recorded, in order, in a
  trace of `Event`s carried by a `World`.  The outside world answers through an
  `Env` (network replies, file-system errors) and the library routines the
  program calls without defining them (`json.Unmarshal` at the four result
  types, the HTML-to-markdown converter) are the fields of a `Lib`.
* `panic(err)` and `log.Fatal(err)` end the process; a function that can end the
  process returns a `Res`.
* The only unbounded loop, the `for` of `GetMailHeaders`, takes fuel and returns
  `none` when the fuel runs out.
-/

namespace EveMailBackup

/-! ## Data model (`main.go` lines 17-38) -/

structure Authentication where
  AccessToken : String
  RefreshToken : String
deriving DecidableEq, Repr

structure Character where
  Id : Int
  Name : String
deriving DecidableEq, Repr

/-- A Go `time.Time`, kept as the values `Format` derives from it: the civil
date and clock in the time's location, the offset of that location in seconds
east of UTC and the abbreviation of the zone (empty when the zone has none). -/
structure GoTime where
  year : Int
  month : Nat
  day : Nat
  hour : Nat
  minute : Nat
  second : Nat
  nanosecond : Nat
  offset : Int
  zone : String
deriving DecidableEq, Repr

structure MailHeader where
  Id : Int
  Subject : String
  Time : GoTime
  From : Int
deriving DecidableEq, Repr

structure Mail where
  Header : MailHeader
  Body : String
  Subject : String
deriving DecidableEq, Repr

/-! ## Formatting (`fmt` verbs and `time` layouts used by the program) -/

/-- The verb `%d` of `fmt.Sprintf` at an `int`. -/
def fmtD : Int → String
  | Int.ofNat m => Nat.repr m
  | Int.negSucc m => "-" ++ Nat.repr (m + 1)

/-- Go's `time.appendInt`: a sign for a negative number, then the decimal digits
of the absolute value, zero-padded on the left to `width`. -/
def appendInt (x : Int) (width : Nat) : String :=
  let ds := Nat.repr x.natAbs
  (if x < 0 then "-" else "") ++ String.mk (List.replicate (width - ds.length) '0') ++ ds

/-- The hours and minutes of a zone offset, with sign, as the layouts `-07:00`
(`colon = true`) and `-0700` print them.  Go divides with truncation. -/
def fmtZone (offset : Int) (colon : Bool) : String :=
  let zone := Int.tdiv offset 60
  let sign := if zone < 0 then "-" else "+"
  let z := zone.natAbs
  sign ++ appendInt (z / 60 : Nat) 2 ++ (if colon then ":" else "") ++ appendInt (z % 60 : Nat) 2

/-- The date and clock part shared by both layouts, with the given separator. -/
def fmtDateClock (t : GoTime) (sep : String) : String :=
  appendInt t.year 4 ++ "-" ++ appendInt t.month 2 ++ "-" ++ appendInt t.day 2 ++ sep ++
    appendInt t.hour 2 ++ ":" ++ appendInt t.minute 2 ++ ":" ++ appendInt t.second 2

/-- The call `t.Format(time.RFC3339)`, layout `2006-01-02T15:04:05Z07:00`. -/
def formatRFC3339 (t : GoTime) : String :=
  fmtDateClock t "T" ++ (if t.offset = 0 then "Z" else fmtZone t.offset true)

/-- The layout element `.999999999`: nothing for a whole second, else a dot and
the nine digits of the nanoseconds with the trailing zeros removed. -/
def fmtFrac (nanosecond : Nat) : String :=
  if nanosecond = 0 then ""
  else "." ++ String.mk ((appendInt nanosecond 9).data.reverse.dropWhile (fun c => c == '0')).reverse

/-- The layout element `MST`: the abbreviation of the zone, or the offset in the
form `-0700` when the zone has none. -/
def fmtAbbrev (t : GoTime) : String :=
  if t.zone ≠ "" then t.zone else fmtZone t.offset false

/-- The verb `%v` at a `time.Time`, which is `t.String()`, layout
`2006-01-02 15:04:05.999999999 -0700 MST` (a time decoded from JSON has no
monotonic clock reading to add). -/
def timeString (t : GoTime) : String :=
  fmtDateClock t " " ++ fmtFrac t.nanosecond ++ " " ++ fmtZone t.offset false ++ " " ++ fmtAbbrev t

/-! ## The outside world -/

/-- What the process did, in the order it did it.  File-system events are
recorded when the operation succeeded. -/
inductive Event where
  | println (s : String)
  | post (url body : String)
  | get (url authorization : String)
  | mkdirAll (path : String)
  | create (path : String)
  | writeString (path data : String)
  | logFatal (msg : String)
deriving DecidableEq, Repr

/-- The number of GET requests sent so far, and the trace so far. -/
structure World where
  gets : Nat
  trace : List Event
deriving DecidableEq, Repr

/-- The outcome of a call that may end the process. -/
inductive Res (α : Type) where
  | ok (a : α)
  | panic (err : String)
  | fatal (err : String)
deriving DecidableEq, Repr

/-- Library routines the program calls: `json.Unmarshal` into each of the four
shapes and `converter.ConvertString`. -/
structure Lib where
  unmarshalAuthentication : String → Except String Authentication
  unmarshalCharacter : String → Except String Character
  unmarshalMailHeaders : String → Except String (List MailHeader)
  unmarshalMail : String → Except String Mail
  convertString : String → Except String String

/-- The environment of one run: the authorization code the browser redirect
delivers, the reply of the token endpoint to a POST, the reply to the k-th GET
request of the run (a transport error or a body), and whether `os.MkdirAll` and
`os.Create` fail given all that happened before. -/
structure Env where
  authCode : String
  post : String → String → Except String String
  get : Nat → String → String → Except String String
  mkdirAll : List Event → String → Option String
  create : List Event → String → Option String

def emit (e : Event) (w : World) : World :=
  { w with trace := w.trace ++ [e] }

/-! ## The program -/

/-- The function `start_callback_server` (lines 40-69) as far as the main
sequence sees it: it receives the code, prints it and returns it. -/
def start_callback_server (env : Env) (w : World) : String × World :=
  (env.authCode, emit (Event.println env.authCode) w)

def tokenUrl : String := "https://login.eveonline.com/oauth/token"

def tokenRequestBody (authCode : String) : String :=
  "\x7b\n\t\t\"grant_type\": \"authorization_code\",\n\t\t\"code\": \"" ++ authCode ++ "\"\n\t\x7d"

/-- The function `Authenticate` (lines 71-96). -/
def Authenticate (lib : Lib) (env : Env) (authCode : String) (w : World) :
    Res Authentication × World :=
  let requestBody := tokenRequestBody authCode
  let w1 := emit (Event.post tokenUrl requestBody) w
  match env.post tokenUrl requestBody with
  | Except.error error => (Res.panic error, w1)
  | Except.ok responseBody =>
    match lib.unmarshalAuthentication responseBody with
    | Except.error err => (Res.panic err, w1)
    | Except.ok auth => (Res.ok auth, w1)

def welcomeText : String :=
  "\nWelcome to the EVE Online Mail Backup!\nThis program asks you to authenticate with your character and will save all your mails\ninto a mail folder. Every eve mail will be in a markdown format.\n\nPlease visit the following URL in your browser and authorize the application:"

def authorizeUrl : String :=
  "https://login.eveonline.com/oauth/authorize?response_type=code&redirect_uri=http://localhost:12525/callback&client_id=8dbb2e13b13c475fb1e51207b5e75df4&scope=esi-mail.read_mail.v1"

/-- The function `Login` (lines 98-108). -/
def Login (lib : Lib) (env : Env) (w : World) : Res Authentication × World :=
  let w1 := emit (Event.println welcomeText) w
  let w2 := emit (Event.println authorizeUrl) w1
  let (authCode, w3) := start_callback_server env w2
  Authenticate lib env authCode w3

/-- The function `getEsi` (lines 110-121): one bearer-authenticated GET. -/
def getEsi (env : Env) (auth : Authentication) (url : String) (w : World) :
    Res String × World :=
  let w1 : World :=
    { gets := w.gets + 1, trace := w.trace ++ [Event.get url ("Bearer " ++ auth.AccessToken)] }
  match env.get w.gets url auth.AccessToken with
  | Except.error error => (Res.panic error, w1)
  | Except.ok responseBody => (Res.ok responseBody, w1)

def verifyUrl : String := "https://login.eveonline.com/oauth/verify"

/-- The function `GetCharacter` (lines 123-135). -/
def GetCharacter (lib : Lib) (env : Env) (auth : Authentication) (w : World) :
    Res Character × World :=
  match getEsi env auth verifyUrl w with
  | (Res.ok response, w1) =>
    match lib.unmarshalCharacter response with
    | Except.error err => (Res.panic err, w1)
    | Except.ok char => (Res.ok char, w1)
  | (Res.panic e, w1) => (Res.panic e, w1)
  | (Res.fatal e, w1) => (Res.fatal e, w1)

/-- The URL of line 145: the mail list without a `last_mail_id`. -/
def mailListUrl (char : Character) : String :=
  "https://esi.evetech.net/latest/characters/" ++ fmtD char.Id ++ "/mail/"

/-- The URL of line 147: the mail list scoped by `last_mail_id`. -/
def mailListUrlFrom (char : Character) (lastMailId : Int) : String :=
  "https://esi.evetech.net/latest/characters/" ++ fmtD char.Id ++ "/mail/?last_mail_id=" ++
    fmtD lastMailId

/-- Lines 144-148: which URL the loop requests for the current `lastMailId`. -/
def nextListUrl (char : Character) (lastMailId : Int) : String :=
  if lastMailId = 0 then mailListUrl char else mailListUrlFrom char lastMailId

/-- Lines 165-170: start from the id of the first header of the page and scan
the whole page, keeping the lower id. -/
def lowestMailId (first : MailHeader) (newMailHeaders : List MailHeader) : Int :=
  newMailHeaders.foldl (fun lastMailId v => if v.Id < lastMailId then v.Id else lastMailId) first.Id

/-- How one pass through the body of the `for` of `GetMailHeaders` ends. -/
inductive Pass where
  | ret (r : Res (List MailHeader))
  | again (mailHeaders : List MailHeader) (lastMailId : Int)
deriving DecidableEq, Repr

/-- One pass through the body of the loop (lines 143-170). -/
def GetMailHeadersPass (lib : Lib) (env : Env) (auth : Authentication) (char : Character)
    (mailHeaders : List MailHeader) (lastMailId : Int) (w : World) : Pass × World :=
  match getEsi env auth (nextListUrl char lastMailId) w with
  | (Res.ok response, w1) =>
    match lib.unmarshalMailHeaders response with
    | Except.error err => (Pass.ret (Res.panic err), emit (Event.println response) w1)
    | Except.ok newMailHeaders =>
      match newMailHeaders with
      | [] => (Pass.ret (Res.ok mailHeaders), w1)
      | first :: _ =>
        (Pass.again (mailHeaders ++ newMailHeaders) (lowestMailId first newMailHeaders), w1)
  | (Res.panic e, w1) => (Pass.ret (Res.panic e), w1)
  | (Res.fatal e, w1) => (Pass.ret (Res.fatal e), w1)

/-- The loop of `GetMailHeaders` (lines 142-171), with fuel. -/
def GetMailHeadersLoop (lib : Lib) (env : Env) (auth : Authentication) (char : Character) :
    Nat → List MailHeader → Int → World → Option (Res (List MailHeader) × World)
  | 0, _, _, _ => none
  | fuel + 1, mailHeaders, lastMailId, w =>
    match GetMailHeadersPass lib env auth char mailHeaders lastMailId w with
    | (Pass.ret r, w1) => some (r, w1)
    | (Pass.again mailHeaders1 lastMailId1, w1) =>
      GetMailHeadersLoop lib env auth char fuel mailHeaders1 lastMailId1 w1

/-- The function `GetMailHeaders` (lines 137-172). -/
def GetMailHeaders (lib : Lib) (env : Env) (auth : Authentication) (char : Character)
    (fuel : Nat) (w : World) : Option (Res (List MailHeader) × World) :=
  GetMailHeadersLoop lib env auth char fuel [] 0 w

def mailUrl (char : Character) (mailHeader : MailHeader) : String :=
  "https://esi.evetech.net/latest/characters/" ++ fmtD char.Id ++ "/mail/" ++
    fmtD mailHeader.Id ++ "/"

/-- The function `GetMail` (lines 174-185). -/
def GetMail (lib : Lib) (env : Env) (auth : Authentication) (char : Character)
    (mailHeader : MailHeader) (w : World) : Res Mail × World :=
  match getEsi env auth (mailUrl char mailHeader) w with
  | (Res.ok response, w1) =>
    match lib.unmarshalMail response with
    | Except.error err => (Res.panic err, emit (Event.println response) w1)
    | Except.ok mail => (Res.ok { mail with Header := mailHeader }, w1)
  | (Res.panic e, w1) => (Res.panic e, w1)
  | (Res.fatal e, w1) => (Res.fatal e, w1)

/-- The path of line 188. -/
def mailPath (mailHeader : MailHeader) : String :=
  "mail/" ++ formatRFC3339 mailHeader.Time ++ " " ++ fmtD mailHeader.Id ++ ".txt"

/-- The data of the `file.WriteString` calls of lines 201-207, in order. -/
def mailWrites (mail : Mail) (markdownBody : String) : List String :=
  [mail.Subject, "\n", fmtD mail.Header.From, "\n", timeString mail.Header.Time, "\n---\n\n",
    markdownBody]

/-- The function `SaveMail` (lines 187-208). -/
def SaveMail (lib : Lib) (env : Env) (mail : Mail) (w : World) : Res Unit × World :=
  let path := mailPath mail.Header
  match env.create w.trace path with
  | some err => (Res.panic err, w)
  | none =>
    let w1 := emit (Event.create path) w
    match lib.convertString mail.Body with
    | Except.error err => (Res.fatal err, emit (Event.logFatal err) w1)
    | Except.ok markdownBody =>
      (Res.ok (),
        { w1 with
          trace := w1.trace ++ (mailWrites mail markdownBody).map (Event.writeString path) })

/-- The directory `main` creates (line 216). -/
def mailDir : String := "eve-mail"

/-- The `for ... range mailHeaders` of `main` (lines 221-225). -/
def mainLoop (lib : Lib) (env : Env) (auth : Authentication) (char : Character) :
    List MailHeader → World → Res Unit × World
  | [], w => (Res.ok (), w)
  | mailHeader :: rest, w =>
    let w1 := emit (Event.println mailHeader.Subject) w
    match GetMail lib env auth char mailHeader w1 with
    | (Res.ok mail, w2) =>
      match SaveMail lib env mail w2 with
      | (Res.ok _, w3) => mainLoop lib env auth char rest w3
      | (Res.panic e, w3) => (Res.panic e, w3)
      | (Res.fatal e, w3) => (Res.fatal e, w3)
    | (Res.panic e, w2) => (Res.panic e, w2)
    | (Res.fatal e, w2) => (Res.fatal e, w2)

/-- The part of `main` after `GetMailHeaders` has returned (lines 215-225). -/
def mainArchive (lib : Lib) (env : Env) (auth : Authentication) (char : Character)
    (mailHeaders : List MailHeader) (w : World) : Res Unit × World :=
  match env.mkdirAll w.trace mailDir with
  | some err => (Res.panic err, w)
  | none => mainLoop lib env auth char mailHeaders (emit (Event.mkdirAll mailDir) w)

/-- The function `main` (lines 210-226).  The fuel is that of `GetMailHeaders`. -/
def main (lib : Lib) (env : Env) (fuel : Nat) : Option (Res Unit × World) :=
  match Login lib env { gets := 0, trace := [] } with
  | (Res.ok auth, w1) =>
    match GetCharacter lib env auth w1 with
    | (Res.ok char, w2) =>
      match GetMailHeaders lib env auth char fuel w2 with
      | none => none
      | some (Res.ok mailHeaders, w3) => some (mainArchive lib env auth char mailHeaders w3)
      | some (Res.panic e, w3) => some (Res.panic e, w3)
      | some (Res.fatal e, w3) => some (Res.fatal e, w3)
    | (Res.panic e, w2) => some (Res.panic e, w2)
    | (Res.fatal e, w2) => some (Res.fatal e, w2)
  | (Res.panic e, w1) => some (Res.panic e, w1)
  | (Res.fatal e, w1) => some (Res.fatal e, w1)

/-! ## Vocabulary of the statements -/

/-- The page the k-th GET request of the run decodes to, for a request to `url`. -/
def pageOf (lib : Lib) (env : Env) (auth : Authentication) (k : Nat) (url : String) :
    Except String (List MailHeader) :=
  match env.get k url auth.AccessToken with
  | Except.error e => Except.error e
  | Except.ok raw => lib.unmarshalMailHeaders raw

/-- The value of `lastMailId` after a page has been processed. -/
def pageCursor : List MailHeader → Int
  | [] => 0
  | first :: rest => lowestMailId first (first :: rest)

/-- The GET request the loop sends when the cursor is `lastMailId`. -/
def listRequest (auth : Authentication) (char : Character) (lastMailId : Int) : Event :=
  Event.get (nextListUrl char lastMailId) ("Bearer " ++ auth.AccessToken)

/-- The headers the loop has still to receive when its cursor is `lastMailId`:
the whole mailbox while the cursor is 0, the headers with an id below the cursor
afterwards. -/
def eligibleAt (mailbox : List MailHeader) (lastMailId : Int) : List MailHeader :=
  if lastMailId = 0 then mailbox else mailbox.filter (fun h => h.Id < lastMailId)

/-- The list `p` is a page of the highest-id headers of `eligible`: it repeats
no header, holds only eligible headers, is empty only when nothing is eligible,
and every eligible header it leaves out is older than all of its headers. -/
def IsTopPage (eligible p : List MailHeader) : Prop :=
  p.Nodup ∧ (∀ h ∈ p, h ∈ eligible) ∧ (eligible ≠ [] → p ≠ []) ∧
    ∀ h ∈ eligible, h ∉ p → ∀ g ∈ p, h.Id < g.Id

instance (eligible p : List MailHeader) : Decidable (IsTopPage eligible p) := by
  unfold IsTopPage
  infer_instance

/-- The loop of `GetMailHeaders` cut off after pass `k + 1`: the outcome of the
last pass run and the world after it.  It shows what a run has done so far
whether or not the run ever returns. -/
def GetMailHeadersPasses (lib : Lib) (env : Env) (auth : Authentication) (char : Character) :
    Nat → List MailHeader → Int → World → Pass × World
  | 0, mailHeaders, lastMailId, w => GetMailHeadersPass lib env auth char mailHeaders lastMailId w
  | k + 1, mailHeaders, lastMailId, w =>
    match GetMailHeadersPass lib env auth char mailHeaders lastMailId w with
    | (Pass.again mailHeaders1 lastMailId1, w1) =>
      GetMailHeadersPasses lib env auth char k mailHeaders1 lastMailId1 w1
    | (Pass.ret r, w1) => (Pass.ret r, w1)

/-- Everything one cycle of the loop of `main` does for a fetched mail whose body
converts to the given markdown: it prints the subject of the header, requests
the mail, creates the file and writes the seven pieces of its content. -/
def cycleEvents (auth : Authentication) (char : Character) (c : Mail × String) : List Event :=
  [Event.println c.1.Header.Subject,
    Event.get (mailUrl char c.1.Header) ("Bearer " ++ auth.AccessToken),
    Event.create (mailPath c.1.Header)] ++
    (mailWrites c.1 c.2).map (Event.writeString (mailPath c.1.Header))

/-- The list `cycles` holds, header by header and in order, the mail fetched for
the header and the markdown archived for it: the mail is what the reply to the
k-th, k+1-st, ... GET request for the header decodes to, with the header
attached, and the markdown is the converter's output on its body. -/
def Cycles (lib : Lib) (env : Env) (auth : Authentication) (char : Character) :
    Nat → List MailHeader → List (Mail × String) → Prop
  | _, [], [] => True
  | k, h :: hs, c :: cs =>
    (∃ raw m0, env.get k (mailUrl char h) auth.AccessToken = Except.ok raw ∧
      lib.unmarshalMail raw = Except.ok m0 ∧ c.1 = { m0 with Header := h }) ∧
    lib.convertString c.1.Body = Except.ok c.2 ∧ Cycles lib env auth char (k + 1) hs cs
  | _, [], _ :: _ => False
  | _, _ :: _, [] => False

/-- The events of a cycle of the loop of `main` that a failure cut short: after
the subject is printed and the mail requested, either the request or the
creation of the file failed, or the undecodable reply was printed, or the file
was created and the conversion failed. -/
def CutShort (auth : Authentication) (char : Character) (h : MailHeader) (tail : List Event) :
    Prop :=
  tail = [Event.println h.Subject, Event.get (mailUrl char h) ("Bearer " ++ auth.AccessToken)] ∨
  (∃ raw, tail = [Event.println h.Subject,
    Event.get (mailUrl char h) ("Bearer " ++ auth.AccessToken), Event.println raw]) ∨
  (∃ err, tail = [Event.println h.Subject,
    Event.get (mailUrl char h) ("Bearer " ++ auth.AccessToken), Event.create (mailPath h),
    Event.logFatal err])

/-- The events of a trace that touch the network beyond the token exchange or
the file system. -/
def listFetchArchiveEvents (trace : List Event) : List Event :=
  trace.filter fun e =>
    match e with
    | Event.get _ _ => true
    | Event.mkdirAll _ => true
    | Event.create _ => true
    | Event.writeString _ _ => true
    | _ => false

/-- The payloads printed with `fmt.Println` in a trace. -/
def printed (trace : List Event) : List String :=
  trace.filterMap fun e =>
    match e with
    | Event.println s => some s
    | _ => none

/-- The content of the file at `path` after the events of a trace: `os.Create`
truncates the file, `WriteString` appends to it. -/
def fileContent (path : String) : List Event → String → String
  | [], content => content
  | Event.create p :: rest, content => fileContent path rest (if p = path then "" else content)
  | Event.writeString p data :: rest, content =>
    fileContent path rest (if p = path then content ++ data else content)
  | _ :: rest, content => fileContent path rest content

/-- The directory part of a path: what stands before its last slash. -/
def parentDir (path : String) : String :=
  String.mk ((path.data.reverse.dropWhile (fun c => c != '/')).drop 1).reverse

/-- The lines of a text, split at line feeds. -/
def linesOfChars : List Char → List Char → List String
  | [], cur => [String.mk cur.reverse]
  | c :: rest, cur =>
    if c = '\n' then String.mk cur.reverse :: linesOfChars rest [] else linesOfChars rest (c :: cur)

def linesOf (s : String) : List String := linesOfChars s.data []

/-! ## Concrete runs -/

def utc2024 : GoTime :=
  { year := 2024, month := 1, day := 1, hour := 0, minute := 0, second := 0, nanosecond := 0,
    offset := 0, zone := "UTC" }

def hdr (id : Int) : MailHeader :=
  { Id := id, Subject := "Hi", Time := utc2024, From := 900 }

def demoAuth : Authentication := { AccessToken := "A", RefreshToken := "R" }

def demoChar : Character := { Id := 7, Name := "N" }

/-- The list payloads the demonstration decoder understands. -/
def demoPages : List (String × List MailHeader) :=
  [("[5,3]", [hdr 5, hdr 3]), ("[2,1]", [hdr 2, hdr 1]), ("[]", []),
    ("[7,0]", [hdr 7, hdr 0]), ("[5,0]", [hdr 5, hdr 0]), ("[5,0,-1]", [hdr 5, hdr 0, hdr (-1)]),
    ("[3,5]", [hdr 3, hdr 5]), ("[1,2]", [hdr 1, hdr 2]), ("[3,2]", [hdr 3, hdr 2]),
    ("[1]", [hdr 1]), ("[0,-1]", [hdr 0, hdr (-1)]), ("[-1]", [hdr (-1)]),
    ("[42]", [hdr 42])]

/-- The error object an OAuth token endpoint answers with when it refuses the
code: valid JSON that has neither `access_token` nor `refresh_token`. -/
def oauthErrorBody : String := "\x7b\"error\":\"invalid_grant\"\x7d"

/-- A decoder for a handful of payloads; every other payload is malformed.  Like
`json.Unmarshal` into a struct, it accepts a JSON object that lacks the keys of
the struct and leaves the fields at their zero values. -/
def demoLib : Lib where
  unmarshalAuthentication s :=
    if s = "tok" then Except.ok demoAuth
    else if s = oauthErrorBody then Except.ok { AccessToken := "", RefreshToken := "" }
    else Except.error "invalid character"
  unmarshalCharacter s :=
    if s = "char" then Except.ok demoChar else Except.error "invalid character"
  unmarshalMailHeaders s :=
    match demoPages.lookup s with
    | some p => Except.ok p
    | none => Except.error "invalid character"
  unmarshalMail s :=
    if s = "mail" then Except.ok { Header := hdr 0, Body := "<b>hello</b>", Subject := "Hi" }
    else Except.error "invalid character"
  convertString s := if s = "<b>hello</b>" then Except.ok "**hello**" else Except.ok s

/-- An environment whose k-th GET reply is the k-th entry of `responses`, and
whose file system never fails. -/
def seqEnv (tokenReply : String) (responses : List String) : Env where
  authCode := "code"
  post _ _ := Except.ok tokenReply
  get k _ _ := Except.ok (responses.getD k "[]")
  mkdirAll _ _ := none
  create _ _ := none

/-- A file system that starts empty: a file can be created only in a directory
that the run has made. -/
def freshDiskEnv (responses : List String) : Env where
  authCode := "code"
  post _ _ := Except.ok "tok"
  get k _ _ := Except.ok (responses.getD k "[]")
  mkdirAll _ _ := none
  create trace path :=
    if Event.mkdirAll (parentDir path) ∈ trace then none
    else some ("open " ++ path ++ ": no such file or directory")

/-- An environment that serves the character, one page with ids 5, 3, the empty
page, and from then on a mail body; its file system never fails. -/
def archiveEnv : Env where
  authCode := "code"
  post _ _ := Except.ok "tok"
  get k _ _ :=
    match k with
    | 0 => Except.ok "char"
    | 1 => Except.ok "[5,3]"
    | 2 => Except.ok "[]"
    | _ + 3 => Except.ok "mail"
  mkdirAll _ _ := none
  create _ _ := none

/-- The mail of the archiving scenario of the specification. -/
def demoMail : Mail :=
  { Header := hdr 42, Body := "<b>hello</b>", Subject := "Hi" }

/-- An API over the mailbox with ids 5, 3, 2, 1 that serves pages of two. -/
def mailboxEnv : Env where
  authCode := "code"
  post _ _ := Except.ok "tok"
  get _ url _ :=
    if url = mailListUrl demoChar then Except.ok "[3,5]"
    else if url = mailListUrlFrom demoChar 5 then Except.ok "[3,2]"
    else if url = mailListUrlFrom demoChar 3 then Except.ok "[1,2]"
    else if url = mailListUrlFrom demoChar 2 then Except.ok "[1]"
    else Except.ok "[]"
  mkdirAll _ _ := none
  create _ _ := none

/-- An API over the mailbox with ids 5, 0, -1 that answers the first request
with a page of two and later requests with pages of up to three. -/
def zeroIdEnv : Env where
  authCode := "code"
  post _ _ := Except.ok "tok"
  get k url _ :=
    if url = mailListUrl demoChar then (if k = 0 then Except.ok "[5,0]" else Except.ok "[5,0,-1]")
    else if url = mailListUrlFrom demoChar 5 then Except.ok "[0,-1]"
    else if url = mailListUrlFrom demoChar 0 then Except.ok "[-1]"
    else Except.ok "[]"
  mkdirAll _ _ := none
  create _ _ := none

/-! ## Lemmas on the pagination loop -/

theorem foldl_low_le (l : List MailHeader) (m : Int) :
    l.foldl (fun a v => if v.Id < a then v.Id else a) m ≤ m ∧
      ∀ h ∈ l, l.foldl (fun a v => if v.Id < a then v.Id else a) m ≤ h.Id := by
  induction l generalizing m with
  | nil => simp
  | cons x xs ih =>
    simp only [List.foldl_cons, List.mem_cons, forall_eq_or_imp]
    by_cases hx : x.Id < m
    · simp only [hx, if_true]
      exact ⟨le_trans (ih x.Id).1 (le_of_lt hx), (ih x.Id).1, (ih x.Id).2⟩
    · simp only [hx, if_false]
      exact ⟨(ih m).1, le_trans (ih m).1 (not_lt.mp hx), (ih m).2⟩

theorem foldl_low_mem (l : List MailHeader) (m : Int) :
    l.foldl (fun a v => if v.Id < a then v.Id else a) m = m ∨
      ∃ h ∈ l, l.foldl (fun a v => if v.Id < a then v.Id else a) m = h.Id := by
  induction l generalizing m with
  | nil => simp
  | cons x xs ih =>
    simp only [List.foldl_cons, List.mem_cons]
    by_cases hx : x.Id < m
    · simp only [hx, if_true]
      rcases ih x.Id with h | ⟨h, hm, he⟩
      · exact Or.inr ⟨x, Or.inl rfl, h⟩
      · exact Or.inr ⟨h, Or.inr hm, he⟩
    · simp only [hx, if_false]
      rcases ih m with h | ⟨h, hm, he⟩
      · exact Or.inl h
      · exact Or.inr ⟨h, Or.inr hm, he⟩

theorem pageCursor_le (p : List MailHeader) : ∀ h ∈ p, pageCursor p ≤ h.Id := by
  cases p with
  | nil => simp
  | cons first rest => exact (foldl_low_le (first :: rest) first.Id).2

theorem pageCursor_mem (p : List MailHeader) (hp : p ≠ []) : ∃ h ∈ p, pageCursor p = h.Id := by
  cases p with
  | nil => exact absurd rfl hp
  | cons first rest =>
    rcases foldl_low_mem (first :: rest) first.Id with h | h
    · exact ⟨first, List.mem_cons_self _ _, h⟩
    · exact h

/-- One pass of the loop on a reply that decodes to the page `p`. -/
theorem pass_of_page (lib : Lib) (env : Env) (auth : Authentication) (char : Character)
    (acc : List MailHeader) (c : Int) (w : World) (p : List MailHeader)
    (hp : pageOf lib env auth w.gets (nextListUrl char c) = Except.ok p) :
    GetMailHeadersPass lib env auth char acc c w =
      (if p = [] then Pass.ret (Res.ok acc) else Pass.again (acc ++ p) (pageCursor p),
        { gets := w.gets + 1, trace := w.trace ++ [listRequest auth char c] }) := by
  unfold pageOf at hp
  unfold GetMailHeadersPass getEsi
  cases hg : env.get w.gets (nextListUrl char c) auth.AccessToken with
  | error e => rw [hg] at hp; simp at hp
  | ok raw =>
    rw [hg] at hp
    simp only at hp
    simp only [hp]
    cases p with
    | nil => simp [listRequest]
    | cons first rest => simp [listRequest, pageCursor]

/-- The run of the loop over pages of which the first empty one has index `n`. -/
theorem loop_run (lib : Lib) (env : Env) (auth : Authentication) (char : Character) :
    ∀ (n : Nat) (pages : Nat → List MailHeader) (acc : List MailHeader) (c : Int) (w : World)
      (extra : Nat),
      (∀ i, i ≤ n → ∀ url, pageOf lib env auth (w.gets + i) url = Except.ok (pages i)) →
      (∀ i, i < n → pages i ≠ []) → pages n = [] →
      GetMailHeadersLoop lib env auth char (n + 1 + extra) acc c w =
        some (Res.ok (acc ++ (List.range n).flatMap pages),
          { gets := w.gets + (n + 1),
            trace := w.trace ++
              (c :: (List.range n).map (fun i => pageCursor (pages i))).map
                (listRequest auth char) }) := by
  intro n
  induction n with
  | zero =>
    intro pages acc c w extra hs _ he
    have h0 := hs 0 (le_refl 0) (nextListUrl char c)
    rw [Nat.add_zero, he] at h0
    have hfuel : 0 + 1 + extra = extra + 1 := by omega
    rw [hfuel, GetMailHeadersLoop, pass_of_page lib env auth char acc c w [] h0]
    simp
  | succ n ih =>
    intro pages acc c w extra hs hne he
    have h0 := hs 0 (Nat.zero_le _) (nextListUrl char c)
    rw [Nat.add_zero] at h0
    have hfuel : n + 1 + 1 + extra = (n + 1 + extra) + 1 := by omega
    rw [hfuel, GetMailHeadersLoop, pass_of_page lib env auth char acc c w (pages 0) h0]
    simp only [hne 0 (Nat.succ_pos n), if_false]
    rw [ih (fun i => pages (i + 1)) (acc ++ pages 0) (pageCursor (pages 0))
      { gets := w.gets + 1, trace := w.trace ++ [listRequest auth char c] } extra
      (fun i hi url => by
        have := hs (i + 1) (Nat.succ_le_succ hi) url
        simpa [Nat.add_assoc, Nat.add_comm 1 i] using this)
      (fun i hi => hne (i + 1) (Nat.succ_lt_succ hi)) he]
    simp [List.range_succ_eq_map, List.flatMap_map, List.map_map, Function.comp_def,
      Nat.add_assoc, Nat.add_comm 1 n]
    omega


/-- A loop that only ever receives non-empty pages does not return. -/
theorem loop_none (lib : Lib) (env : Env) (auth : Authentication) (char : Character) :
    ∀ (fuel : Nat) (pages : Nat → List MailHeader) (acc : List MailHeader) (c : Int) (w : World),
      (∀ i url, pageOf lib env auth (w.gets + i) url = Except.ok (pages i)) →
      (∀ i, pages i ≠ []) →
      GetMailHeadersLoop lib env auth char fuel acc c w = none := by
  intro fuel
  induction fuel with
  | zero => intro pages acc c w _ _; rfl
  | succ fuel ih =>
    intro pages acc c w hs hne
    have h0 := hs 0 (nextListUrl char c)
    rw [Nat.add_zero] at h0
    rw [GetMailHeadersLoop, pass_of_page lib env auth char acc c w (pages 0) h0]
    simp only [hne 0, if_false]
    exact ih (fun i => pages (i + 1)) _ _ _
      (fun i url => by
        have := hs (i + 1) url
        simpa [Nat.add_assoc, Nat.add_comm 1 i] using this)
      (fun i => hne (i + 1))

/-! ## The pagination loop: claims C1, C2, C3 and C5 -/

/-- C1: when the replies to the list requests decode to a sequence of pages
whose first empty page has index `n`, `GetMailHeaders` returns (with any fuel of
at least `n + 1`) the concatenation in order of the pages before it, and it has
then sent exactly `n + 1` requests, all of them list requests. -/
theorem GetMailHeaders_concat_until_first_empty (lib : Lib) (env : Env)
    (auth : Authentication) (char : Character) (pages : Nat → List MailHeader) (n : Nat)
    (w : World) (extra : Nat)
    (hserved : ∀ i, i ≤ n → ∀ url, pageOf lib env auth (w.gets + i) url = Except.ok (pages i))
    (hfull : ∀ i, i < n → pages i ≠ [])
    (hempty : pages n = []) :
    ∃ w1 reqs,
      GetMailHeaders lib env auth char (n + 1 + extra) w =
        some (Res.ok ((List.range n).flatMap pages), w1) ∧
      w1.gets = w.gets + (n + 1) ∧ w1.trace = w.trace ++ reqs ∧ reqs.length = n + 1 ∧
      ∀ e ∈ reqs, ∃ c, e = listRequest auth char c := by
  refine ⟨{ gets := w.gets + (n + 1),
            trace := w.trace ++
              (0 :: (List.range n).map (fun i => pageCursor (pages i))).map
                (listRequest auth char) },
    (0 :: (List.range n).map (fun i => pageCursor (pages i))).map (listRequest auth char),
    ?_, rfl, rfl, ?_, ?_⟩
  · unfold GetMailHeaders
    rw [loop_run lib env auth char n pages [] 0 w extra hserved hfull hempty]
    rfl
  · simp
  · intro e he
    rw [List.mem_map] at he
    obtain ⟨c, _, hc⟩ := he
    exact ⟨c, hc.symm⟩

/-- C1, the scenario of the specification: the pages with ids 5, 3 and 2, 1
followed by an empty page give the headers 5, 3, 2, 1 after three requests. -/
theorem GetMailHeaders_concat_until_first_empty_witness :
    ∃ w1 reqs,
      GetMailHeaders demoLib (seqEnv "tok" ["[5,3]", "[2,1]", "[]"]) demoAuth demoChar 3
          { gets := 0, trace := [] } =
        some (Res.ok [hdr 5, hdr 3, hdr 2, hdr 1], w1) ∧
      w1.gets = 3 ∧ w1.trace = reqs ∧ reqs.length = 3 ∧
      ∀ e ∈ reqs, ∃ c, e = listRequest demoAuth demoChar c := by
  have h := GetMailHeaders_concat_until_first_empty demoLib
    (seqEnv "tok" ["[5,3]", "[2,1]", "[]"]) demoAuth demoChar
    (fun i => [[hdr 5, hdr 3], [hdr 2, hdr 1]].getD i []) 2 { gets := 0, trace := [] } 0
    (by
      intro i hi url
      interval_cases i <;> rfl)
    (by
      intro i hi
      interval_cases i <;> simp)
    rfl
  obtain ⟨w1, reqs, h1, h2, h3, h4, h5⟩ := h
  refine ⟨w1, reqs, ?_, ?_, ?_, h4, h5⟩
  · rw [h1]; rfl
  · rw [h2]
  · rw [h3]; rfl

/-- C2: a pass of the loop that receives a non-empty page goes round again with
the page appended and with a cursor that is the id of a header of the page and
is at most the id of every header of the page. -/
theorem GetMailHeadersPass_cursor_is_page_minimum (lib : Lib) (env : Env)
    (auth : Authentication) (char : Character) (mailHeaders : List MailHeader)
    (lastMailId : Int) (w : World) (page : List MailHeader)
    (hpage : pageOf lib env auth w.gets (nextListUrl char lastMailId) = Except.ok page)
    (hne : page ≠ []) :
    ∃ cursor w1,
      GetMailHeadersPass lib env auth char mailHeaders lastMailId w =
        (Pass.again (mailHeaders ++ page) cursor, w1) ∧
      (∃ h ∈ page, cursor = h.Id) ∧ ∀ h ∈ page, cursor ≤ h.Id := by
  refine ⟨pageCursor page,
    { gets := w.gets + 1, trace := w.trace ++ [listRequest auth char lastMailId] },
    ?_, pageCursor_mem page hne, pageCursor_le page⟩
  rw [pass_of_page lib env auth char mailHeaders lastMailId w page hpage]
  simp only [hne, if_false]

/-- C2 on the page with ids 3, 5 (the lowest id first): the next cursor is 3. -/
theorem GetMailHeadersPass_cursor_is_page_minimum_witness :
    ∃ cursor w1,
      GetMailHeadersPass demoLib (seqEnv "tok" ["[3,5]"]) demoAuth demoChar [] 0
          { gets := 0, trace := [] } =
        (Pass.again ([] ++ [hdr 3, hdr 5]) cursor, w1) ∧
      (∃ h ∈ [hdr 3, hdr 5], cursor = h.Id) ∧ ∀ h ∈ [hdr 3, hdr 5], cursor ≤ h.Id :=
  GetMailHeadersPass_cursor_is_page_minimum demoLib (seqEnv "tok" ["[3,5]"]) demoAuth demoChar
    [] 0 { gets := 0, trace := [] } [hdr 3, hdr 5] rfl (by simp)

/-- C3 as stated fails: after the page with ids 7, 0, whose lowest id is 0, the
second request is again the request without `last_mail_id`, not the request
scoped with the cursor 0. -/
theorem C3_second_request_unscoped_counterexample :
    ∃ w1,
      GetMailHeaders demoLib (seqEnv "tok" ["[7,0]", "[]"]) demoAuth demoChar 2
          { gets := 0, trace := [] } = some (Res.ok [hdr 7, hdr 0], w1) ∧
      pageCursor [hdr 7, hdr 0] = 0 ∧
      w1.trace =
        [Event.get (mailListUrl demoChar) "Bearer A", Event.get (mailListUrl demoChar) "Bearer A"] ∧
      w1.trace ≠
        [Event.get (mailListUrl demoChar) "Bearer A",
          Event.get (mailListUrlFrom demoChar (pageCursor [hdr 7, hdr 0])) "Bearer A"] := by
  refine ⟨_, rfl, ?_, ?_, ?_⟩ <;> decide

/-- The loop with fuel `k + 1` returns what the last of its `k + 1` passes
returns, and nothing when that pass asks for another. -/
theorem loop_eq_passes (lib : Lib) (env : Env) (auth : Authentication) (char : Character) :
    ∀ (k : Nat) (acc : List MailHeader) (c : Int) (w : World),
      GetMailHeadersLoop lib env auth char (k + 1) acc c w =
        match GetMailHeadersPasses lib env auth char k acc c w with
        | (Pass.ret r, w1) => some (r, w1)
        | (Pass.again _ _, _) => none := by
  intro k
  induction k with
  | zero =>
    intro acc c w
    rw [GetMailHeadersLoop, GetMailHeadersPasses]
    cases hp : GetMailHeadersPass lib env auth char acc c w with
    | mk p w1 =>
      cases p with
      | ret r => rfl
      | again a1 c1 => rfl
  | succ k ih =>
    intro acc c w
    rw [GetMailHeadersLoop, GetMailHeadersPasses]
    cases hp : GetMailHeadersPass lib env auth char acc c w with
    | mk p w1 =>
      cases p with
      | ret r => rfl
      | again a1 c1 => exact ih a1 c1 w1

/-- The first `n + 1` passes over pages of which the first `n` are not empty. -/
theorem passes_run (lib : Lib) (env : Env) (auth : Authentication) (char : Character) :
    ∀ (n : Nat) (pages : Nat → List MailHeader) (acc : List MailHeader) (c : Int) (w : World),
      (∀ i, i ≤ n → ∀ url, pageOf lib env auth (w.gets + i) url = Except.ok (pages i)) →
      (∀ i, i < n → pages i ≠ []) →
      GetMailHeadersPasses lib env auth char n acc c w =
        (if pages n = [] then Pass.ret (Res.ok (acc ++ (List.range n).flatMap pages))
          else Pass.again (acc ++ (List.range n).flatMap pages ++ pages n) (pageCursor (pages n)),
          { gets := w.gets + (n + 1),
            trace := w.trace ++
              (c :: (List.range n).map (fun i => pageCursor (pages i))).map
                (listRequest auth char) }) := by
  intro n
  induction n with
  | zero =>
    intro pages acc c w hs _
    have h0 := hs 0 (le_refl 0) (nextListUrl char c)
    rw [Nat.add_zero] at h0
    rw [GetMailHeadersPasses, pass_of_page lib env auth char acc c w (pages 0) h0]
    simp
  | succ n ih =>
    intro pages acc c w hs hne
    have h0 := hs 0 (Nat.zero_le _) (nextListUrl char c)
    rw [Nat.add_zero] at h0
    rw [GetMailHeadersPasses, pass_of_page lib env auth char acc c w (pages 0) h0]
    simp only [hne 0 (Nat.succ_pos n), if_false]
    rw [ih (fun i => pages (i + 1)) (acc ++ pages 0) (pageCursor (pages 0))
      { gets := w.gets + 1, trace := w.trace ++ [listRequest auth char c] }
      (fun i hi url => by
        have := hs (i + 1) (Nat.succ_le_succ hi) url
        simpa [Nat.add_assoc, Nat.add_comm 1 i] using this)
      (fun i hi => hne (i + 1) (Nat.succ_lt_succ hi))]
    simp [List.range_succ_eq_map, List.flatMap_map, List.map_map, Function.comp_def,
      Nat.add_assoc, Nat.add_comm 1 n]
    omega

/-- C3, amended: in every run of `GetMailHeaders`, whether or not it ever
returns, the requests sent up to and including the one that follows the n-th
non-empty page are `n + 1` requests; the first is the request without
`last_mail_id`, and the request that follows a page whose lowest id is not 0 is
the request with `last_mail_id` equal to the cursor after that page, which is
the lowest id of the page.  When the page after them is empty, this is the
world `GetMailHeaders` returns in. -/
theorem GetMailHeaders_requests_scoped_by_cursor (lib : Lib) (env : Env)
    (auth : Authentication) (char : Character) (pages : Nat → List MailHeader) (n : Nat)
    (w : World)
    (hserved : ∀ i, i ≤ n → ∀ url, pageOf lib env auth (w.gets + i) url = Except.ok (pages i))
    (hfull : ∀ i, i < n → pages i ≠ []) :
    ∃ reqs : List Event,
      (GetMailHeadersPasses lib env auth char n [] 0 w).2.trace = w.trace ++ reqs ∧
      reqs.length = n + 1 ∧
      reqs[0]? = some (Event.get (mailListUrl char) ("Bearer " ++ auth.AccessToken)) ∧
      (∀ i, i < n → pageCursor (pages i) ≠ 0 →
        reqs[i + 1]? =
          some (Event.get (mailListUrlFrom char (pageCursor (pages i)))
            ("Bearer " ++ auth.AccessToken))) ∧
      (∀ i, i < n →
        (∃ h ∈ pages i, pageCursor (pages i) = h.Id) ∧
          ∀ h ∈ pages i, pageCursor (pages i) ≤ h.Id) ∧
      (pages n = [] → ∀ extra, ∃ r,
        GetMailHeaders lib env auth char (n + 1 + extra) w =
          some (r, (GetMailHeadersPasses lib env auth char n [] 0 w).2)) := by
  refine ⟨(0 :: (List.range n).map (fun i => pageCursor (pages i))).map (listRequest auth char),
    ?_, ?_, ?_, ?_, fun i hi => ⟨pageCursor_mem _ (hfull i hi), pageCursor_le _⟩, ?_⟩
  · rw [passes_run lib env auth char n pages [] 0 w hserved hfull]
  · simp
  · simp [listRequest, nextListUrl]
  · intro i hi hnz
    simp [List.getElem?_range hi, listRequest, nextListUrl, hnz]
  · intro hempty extra
    refine ⟨Res.ok ([] ++ (List.range n).flatMap pages), ?_⟩
    rw [passes_run lib env auth char n pages [] 0 w hserved hfull]
    unfold GetMailHeaders
    exact loop_run lib env auth char n pages [] 0 w extra hserved hfull hempty

/-- C3, amended, on the pages with ids 7, 0 then 5, 3 then the empty page: the
first request carries no cursor, and the third, which follows the page with
lowest id 3, carries `last_mail_id=3`. -/
theorem GetMailHeaders_requests_scoped_by_cursor_witness :
    ∃ r w1,
      GetMailHeaders demoLib (seqEnv "tok" ["[7,0]", "[5,3]", "[]"]) demoAuth demoChar 3
          { gets := 0, trace := [] } = some (r, w1) ∧
      w1.trace.length = 3 ∧
      w1.trace[0]? =
        some (Event.get "https://esi.evetech.net/latest/characters/7/mail/" "Bearer A") ∧
      w1.trace[2]? =
        some (Event.get "https://esi.evetech.net/latest/characters/7/mail/?last_mail_id=3"
          "Bearer A") := by
  obtain ⟨reqs, htrace, hlen, hfirst, hnext, _, hret⟩ :=
    GetMailHeaders_requests_scoped_by_cursor demoLib
      (seqEnv "tok" ["[7,0]", "[5,3]", "[]"]) demoAuth demoChar
      (fun i => [[hdr 7, hdr 0], [hdr 5, hdr 3]].getD i []) 2 { gets := 0, trace := [] }
      (by
        intro i hi url
        interval_cases i <;> rfl)
      (by
        intro i hi
        interval_cases i <;> simp)
  obtain ⟨r, hr⟩ := hret rfl 0
  have h2 := hnext 1 (by decide) (by decide)
  refine ⟨r, _, hr, ?_, ?_, ?_⟩
  · rw [htrace]; simpa using hlen
  · rw [htrace]; simpa using hfirst
  · rw [htrace]
    simp only [List.nil_append]
    rw [h2]
    decide

/-- C5: over an infinite sequence of well-formed replies, `GetMailHeaders`
returns for some amount of fuel exactly when some page of the sequence is
empty; when no page is empty it returns for no amount of fuel. -/
theorem GetMailHeaders_terminates_iff_some_page_empty (lib : Lib) (env : Env)
    (auth : Authentication) (char : Character) (pages : Nat → List MailHeader) (w : World)
    (hserved : ∀ i url, pageOf lib env auth (w.gets + i) url = Except.ok (pages i)) :
    ((∃ fuel r, GetMailHeaders lib env auth char fuel w = some r) ↔ ∃ i, pages i = []) ∧
    ((∀ i, pages i ≠ []) → ∀ fuel, GetMailHeaders lib env auth char fuel w = none) := by
  have hnever : (∀ i, pages i ≠ []) → ∀ fuel, GetMailHeaders lib env auth char fuel w = none :=
    fun hne fuel => loop_none lib env auth char fuel pages [] 0 w hserved hne
  refine ⟨⟨?_, ?_⟩, hnever⟩
  · rintro ⟨fuel, r, hr⟩
    by_contra hno
    rw [hnever (fun i hi => hno ⟨i, hi⟩) fuel] at hr
    exact Option.noConfusion hr
  · intro hex
    classical
    have h := loop_run lib env auth char (Nat.find hex) pages [] 0 w 0
      (fun i _ url => hserved i url)
      (fun i hi => Nat.find_min hex hi)
      (Nat.find_spec hex)
    exact ⟨Nat.find hex + 1 + 0, _, h⟩

/-- C5 on the replies 5, 3 then 2, 1 then empty pages for ever: the loop
returns, and an empty page exists. -/
theorem GetMailHeaders_terminates_iff_some_page_empty_witness :
    ((∃ fuel r, GetMailHeaders demoLib (seqEnv "tok" ["[5,3]", "[2,1]"]) demoAuth demoChar fuel
        { gets := 0, trace := [] } = some r) ↔
      ∃ i, (fun i => [[hdr 5, hdr 3], [hdr 2, hdr 1]].getD i []) i = []) ∧
    ((∀ i, (fun i => [[hdr 5, hdr 3], [hdr 2, hdr 1]].getD i []) i ≠ []) →
      ∀ fuel, GetMailHeaders demoLib (seqEnv "tok" ["[5,3]", "[2,1]"]) demoAuth demoChar fuel
        { gets := 0, trace := [] } = none) :=
  GetMailHeaders_terminates_iff_some_page_empty demoLib (seqEnv "tok" ["[5,3]", "[2,1]"])
    demoAuth demoChar (fun i => [[hdr 5, hdr 3], [hdr 2, hdr 1]].getD i [])
    { gets := 0, trace := [] }
    (by
      intro i url
      match i with
      | 0 => rfl
      | 1 => rfl
      | k + 2 => rfl)

/-! ## Enumeration of a mailbox: claim C4 -/

theorem eligibleAt_subset (mb : List MailHeader) (c : Int) :
    ∀ h ∈ eligibleAt mb c, h ∈ mb := by
  intro h hh
  unfold eligibleAt at hh
  split at hh
  · exact hh
  · exact (List.mem_filter.mp hh).1

theorem eligibleAt_step (mb : List MailHeader) (c c1 : Int) (hc1 : c1 ≠ 0)
    (hlt : c ≠ 0 → c1 < c) :
    eligibleAt mb c1 = (eligibleAt mb c).filter (fun h => h.Id < c1) := by
  unfold eligibleAt
  simp only [hc1, if_false]
  by_cases hc : c = 0
  · simp [hc]
  · simp only [hc, if_false, List.filter_filter]
    apply List.filter_congr
    intro h _
    have := hlt hc
    by_cases h1 : h.Id < c1
    · have h2 : h.Id < c := lt_trans h1 this
      simp [h1, h2]
    · simp [h1]

/-- A pass that receives the empty page ends the loop with the list so far. -/
theorem loop_empty_page (lib : Lib) (env : Env) (auth : Authentication) (char : Character)
    (acc : List MailHeader) (c : Int) (w : World)
    (hp : pageOf lib env auth w.gets (nextListUrl char c) = Except.ok []) :
    GetMailHeadersLoop lib env auth char 1 acc c w =
      some (Res.ok acc,
        { gets := w.gets + 1, trace := w.trace ++ [listRequest auth char c] }) := by
  rw [GetMailHeadersLoop, pass_of_page lib env auth char acc c w [] hp]
  simp

/-- From a state that has received exactly the headers that are no longer
eligible, the loop returns the whole mailbox without a repeated id. -/
theorem loop_enumerates (lib : Lib) (env : Env) (auth : Authentication) (char : Character)
    (mb : List MailHeader) (hdistinct : (mb.map (fun h => h.Id)).Nodup)
    (hnonzero : ∀ h ∈ mb, h.Id ≠ 0)
    (hpage : ∀ k c, (c = 0 ∨ ∃ h ∈ mb, h.Id = c) →
      ∃ p, pageOf lib env auth k (nextListUrl char c) = Except.ok p ∧
        IsTopPage (eligibleAt mb c) p) :
    ∀ (n : Nat) (acc : List MailHeader) (c : Int) (w : World),
      (eligibleAt mb c).length ≤ n →
      (c = 0 ∨ ∃ h ∈ mb, h.Id = c) →
      (acc.map (fun h => h.Id)).Nodup →
      (∀ h, h ∈ acc ↔ h ∈ mb ∧ h ∉ eligibleAt mb c) →
      ∃ fuel result w1,
        GetMailHeadersLoop lib env auth char fuel acc c w = some (Res.ok result, w1) ∧
        (result.map (fun h => h.Id)).Nodup ∧ ∀ h, h ∈ result ↔ h ∈ mb := by
  have hinj := List.inj_on_of_nodup_map hdistinct
  intro n
  induction n with
  | zero =>
    intro acc c w hlen hc hnd hacc
    obtain ⟨p, hp, _, hsub, _, _⟩ := hpage w.gets c hc
    have hE : eligibleAt mb c = [] := List.length_eq_zero.mp (Nat.le_zero.mp hlen)
    have hp0 : p = [] := by
      cases p with
      | nil => rfl
      | cons x xs =>
        have := hsub x (List.mem_cons_self _ _)
        rw [hE] at this
        exact absurd this (List.not_mem_nil _)
    subst hp0
    refine ⟨1, acc, _, loop_empty_page lib env auth char acc c w hp, hnd, ?_⟩
    intro h
    rw [hacc h, hE]
    simp
  | succ n ih =>
    intro acc c w hlen hc hnd hacc
    obtain ⟨p, hp, hpnd, hsub, hnonempty, htop⟩ := hpage w.gets c hc
    by_cases hp0 : p = []
    · subst hp0
      have hE : eligibleAt mb c = [] := by
        by_contra hne
        exact hnonempty hne rfl
      refine ⟨1, acc, _, loop_empty_page lib env auth char acc c w hp, hnd, ?_⟩
      intro h
      rw [hacc h, hE]
      simp
    · obtain ⟨h0, h0p, hcur⟩ := pageCursor_mem p hp0
      have h0E : h0 ∈ eligibleAt mb c := hsub h0 h0p
      have h0mb : h0 ∈ mb := eligibleAt_subset mb c h0 h0E
      have hc1 : pageCursor p ≠ 0 := by rw [hcur]; exact hnonzero h0 h0mb
      have hlt : c ≠ 0 → pageCursor p < c := by
        intro hc0
        have := h0E
        unfold eligibleAt at this
        simp only [hc0, if_false, List.mem_filter, decide_eq_true_eq] at this
        rw [hcur]
        exact this.2
      have hstep := eligibleAt_step mb c (pageCursor p) hc1 hlt
      have hlen1 : (eligibleAt mb (pageCursor p)).length ≤ n := by
        have : (eligibleAt mb (pageCursor p)).length < (eligibleAt mb c).length := by
          rw [hstep]
          apply List.length_filter_lt_length_iff_exists.mpr
          refine ⟨h0, h0E, ?_⟩
          simp [hcur]
        omega
      have hsubE : ∀ h, h ∈ eligibleAt mb (pageCursor p) → h ∈ eligibleAt mb c := by
        intro h hh
        rw [hstep] at hh
        exact (List.mem_filter.mp hh).1
      have hmemE : ∀ h, h ∈ eligibleAt mb (pageCursor p) ↔ h ∈ mb ∧ h.Id < pageCursor p := by
        intro h
        unfold eligibleAt
        simp [hc1]
      have hnd1 : ((acc ++ p).map (fun h => h.Id)).Nodup := by
        rw [List.map_append, List.nodup_append]
        refine ⟨hnd, ?_, ?_⟩
        · exact List.Nodup.map_on
            (fun x hx y hy hxy =>
              hinj (eligibleAt_subset mb c x (hsub x hx))
                (eligibleAt_subset mb c y (hsub y hy)) hxy)
            hpnd
        · intro i hia hip
          obtain ⟨a, ha, rfl⟩ := List.mem_map.mp hia
          obtain ⟨b, hb, hba⟩ := List.mem_map.mp hip
          have hamb := ((hacc a).mp ha).1
          have hbE := hsub b hb
          have hab : b = a := hinj (eligibleAt_subset mb c b hbE) hamb hba
          rw [hab] at hbE
          exact ((hacc a).mp ha).2 hbE
      have hacc1 : ∀ h, h ∈ acc ++ p ↔ h ∈ mb ∧ h ∉ eligibleAt mb (pageCursor p) := by
        intro h
        rw [List.mem_append]
        constructor
        · rintro (ha | hpm)
          · exact ⟨((hacc h).mp ha).1, fun hh => ((hacc h).mp ha).2 (hsubE h hh)⟩
          · refine ⟨eligibleAt_subset mb c h (hsub h hpm), fun hh => ?_⟩
            have h1 := ((hmemE h).mp hh).2
            have h2 := pageCursor_le p h hpm
            omega
        · rintro ⟨hmb, hnot⟩
          by_cases hE : h ∈ eligibleAt mb c
          · by_cases hin : h ∈ p
            · exact Or.inr hin
            · exfalso
              have h1 := htop h hE hin h0 h0p
              rw [← hcur] at h1
              exact hnot ((hmemE h).mpr ⟨hmb, h1⟩)
          · exact Or.inl ((hacc h).mpr ⟨hmb, hE⟩)
      obtain ⟨fuel, result, w1, hrun, hres⟩ :=
        ih (acc ++ p) (pageCursor p)
          { gets := w.gets + 1, trace := w.trace ++ [listRequest auth char c] }
          hlen1 (Or.inr ⟨h0, h0mb, hcur.symm⟩) hnd1 hacc1
      refine ⟨fuel + 1, result, w1, ?_, hres⟩
      rw [GetMailHeadersLoop, pass_of_page lib env auth char acc c w p hp]
      simp only [hp0, if_false]
      exact hrun

/-- C4 as stated fails: over the mailbox with the distinct ids 5, 0, -1 and an
API that answers as the claim requires, the first page 5, 0 leaves the cursor at
0, the next request is again unscoped, and the list returned repeats the ids 5
and 0. -/
theorem C4_zero_id_repeats_headers_counterexample :
    ([hdr 5, hdr 0, hdr (-1)].map (fun h => h.Id)).Nodup ∧
    (∀ k, ∃ p, pageOf demoLib zeroIdEnv demoAuth k (mailListUrl demoChar) = Except.ok p ∧
      IsTopPage [hdr 5, hdr 0, hdr (-1)] p) ∧
    (∀ k c, (∃ h ∈ [hdr 5, hdr 0, hdr (-1)], h.Id = c) →
      ∃ p, pageOf demoLib zeroIdEnv demoAuth k (mailListUrlFrom demoChar c) = Except.ok p ∧
        IsTopPage ([hdr 5, hdr 0, hdr (-1)].filter (fun h => h.Id < c)) p) ∧
    (∀ extra, ∃ w1,
      GetMailHeaders demoLib zeroIdEnv demoAuth demoChar (extra + 3) { gets := 0, trace := [] } =
        some (Res.ok [hdr 5, hdr 0, hdr 5, hdr 0, hdr (-1)], w1)) ∧
    ¬ ([hdr 5, hdr 0, hdr 5, hdr 0, hdr (-1)].map (fun h => h.Id)).Nodup := by
  refine ⟨by decide, ?_, ?_, fun extra => ⟨_, rfl⟩, by decide⟩
  · intro k
    cases k with
    | zero => exact ⟨[hdr 5, hdr 0], rfl, by decide⟩
    | succ k => exact ⟨[hdr 5, hdr 0, hdr (-1)], rfl, by decide⟩
  · intro k c hc
    simp only [List.mem_cons, List.mem_singleton, List.not_mem_nil, or_false,
      exists_eq_or_imp, exists_eq_left] at hc
    rcases hc with rfl | rfl | rfl
    · exact ⟨[hdr 0, hdr (-1)], rfl, by decide⟩
    · exact ⟨[hdr (-1)], rfl, by decide⟩
    · exact ⟨[], rfl, by decide⟩

/-- C4, amended: over a mailbox with pairwise distinct, non-zero ids and an API
that answers every unscoped request with a page of the highest-id headers of
the mailbox and every request scoped by the id of a header with a page of the
highest-id headers older than that id (empty only when there is none),
`GetMailHeaders` returns, and the list it returns has no repeated id and holds
exactly the headers of the mailbox. -/
theorem GetMailHeaders_enumerates_mailbox (lib : Lib) (env : Env) (auth : Authentication)
    (char : Character) (mailbox : List MailHeader) (w : World)
    (hdistinct : (mailbox.map (fun h => h.Id)).Nodup)
    (hnonzero : ∀ h ∈ mailbox, h.Id ≠ 0)
    (hfirst : ∀ k, ∃ p, pageOf lib env auth k (mailListUrl char) = Except.ok p ∧
      IsTopPage mailbox p)
    (hnext : ∀ k c, (∃ h ∈ mailbox, h.Id = c) →
      ∃ p, pageOf lib env auth k (mailListUrlFrom char c) = Except.ok p ∧
        IsTopPage (mailbox.filter (fun h => h.Id < c)) p) :
    ∃ fuel result w1,
      GetMailHeaders lib env auth char fuel w = some (Res.ok result, w1) ∧
      (result.map (fun h => h.Id)).Nodup ∧ ∀ h, h ∈ result ↔ h ∈ mailbox := by
  have hpage : ∀ k c, (c = 0 ∨ ∃ h ∈ mailbox, h.Id = c) →
      ∃ p, pageOf lib env auth k (nextListUrl char c) = Except.ok p ∧
        IsTopPage (eligibleAt mailbox c) p := by
    intro k c hc
    by_cases hc0 : c = 0
    · subst hc0
      simpa [nextListUrl, eligibleAt] using hfirst k
    · rcases hc with h | h
      · exact absurd h hc0
      · simpa [nextListUrl, eligibleAt, hc0] using hnext k c h
  unfold GetMailHeaders
  exact loop_enumerates lib env auth char mailbox hdistinct hnonzero hpage
    (eligibleAt mailbox 0).length [] 0 w (le_refl _) (Or.inl rfl) (by simp)
    (by
      intro h
      simp [eligibleAt])

/-- C4, amended, on the mailbox with ids 5, 3, 2, 1 served in unsorted pages of
two. -/
theorem GetMailHeaders_enumerates_mailbox_witness :
    ∃ fuel result w1,
      GetMailHeaders demoLib mailboxEnv demoAuth demoChar fuel { gets := 0, trace := [] } =
        some (Res.ok result, w1) ∧
      (result.map (fun h => h.Id)).Nodup ∧
      ∀ h, h ∈ result ↔ h ∈ [hdr 5, hdr 3, hdr 2, hdr 1] :=
  GetMailHeaders_enumerates_mailbox demoLib mailboxEnv demoAuth demoChar
    [hdr 5, hdr 3, hdr 2, hdr 1] { gets := 0, trace := [] } (by decide) (by decide)
    (fun _ => ⟨[hdr 3, hdr 5], rfl, by decide⟩)
    (by
      intro k c hc
      simp only [List.mem_cons, List.mem_singleton, List.not_mem_nil, or_false,
        exists_eq_or_imp, exists_eq_left] at hc
      rcases hc with rfl | rfl | rfl | rfl
      · exact ⟨[hdr 3, hdr 2], rfl, by decide⟩
      · exact ⟨[hdr 1, hdr 2], rfl, by decide⟩
      · exact ⟨[hdr 1], rfl, by decide⟩
      · exact ⟨[], rfl, by decide⟩)

/-! ## Archiving: claims C6, C7 and C8 -/

theorem fileContent_append (path : String) (a b : List Event) (content : String) :
    fileContent path (a ++ b) content = fileContent path b (fileContent path a content) := by
  induction a generalizing content with
  | nil => rfl
  | cons e rest ih =>
    cases e <;> simp only [List.cons_append, fileContent] <;> exact ih _

/-- What `SaveMail` does when the file can be created and the body converts. -/
theorem SaveMail_ok (lib : Lib) (env : Env) (mail : Mail) (w : World) (markdownBody : String)
    (hcreate : env.create w.trace (mailPath mail.Header) = none)
    (hconv : lib.convertString mail.Body = Except.ok markdownBody) :
    SaveMail lib env mail w =
      (Res.ok (),
        { gets := w.gets,
          trace := w.trace ++ Event.create (mailPath mail.Header) ::
            (mailWrites mail markdownBody).map (Event.writeString (mailPath mail.Header)) }) := by
  unfold SaveMail
  simp [hcreate, hconv, emit]

/-- What `GetMail` does on a reply that decodes to a mail. -/
theorem GetMail_ok (lib : Lib) (env : Env) (auth : Authentication) (char : Character)
    (mailHeader : MailHeader) (w : World) (raw : String) (mail : Mail)
    (hget : env.get w.gets (mailUrl char mailHeader) auth.AccessToken = Except.ok raw)
    (hdec : lib.unmarshalMail raw = Except.ok mail) :
    GetMail lib env auth char mailHeader w =
      (Res.ok { mail with Header := mailHeader },
        { gets := w.gets + 1,
          trace := w.trace ++
            [Event.get (mailUrl char mailHeader) ("Bearer " ++ auth.AccessToken)] }) := by
  unfold GetMail getEsi
  simp [hget, hdec]

/-- The loop of `main` ends normally in an environment in which every fetch and
every archive step succeeds. -/
theorem mainLoop_cycles (lib : Lib) (env : Env) (auth : Authentication) (char : Character)
    (hcreate : ∀ trace path, env.create trace path = none)
    (hconv : ∀ body, ∃ markdownBody, lib.convertString body = Except.ok markdownBody) :
    ∀ (mailHeaders : List MailHeader) (w : World),
      (∀ k url, w.gets ≤ k → ∃ raw mail,
        env.get k url auth.AccessToken = Except.ok raw ∧ lib.unmarshalMail raw = Except.ok mail) →
      ∃ w1, mainLoop lib env auth char mailHeaders w = (Res.ok (), w1) := by
  intro mailHeaders
  induction mailHeaders with
  | nil => intro w _; exact ⟨w, rfl⟩
  | cons mailHeader rest ih =>
    intro w hget
    obtain ⟨raw, mail, hraw, hmail⟩ := hget w.gets (mailUrl char mailHeader) (le_refl _)
    obtain ⟨markdownBody, hmd⟩ := hconv mail.Body
    have hfetch := GetMail_ok lib env auth char mailHeader
      (emit (Event.println mailHeader.Subject) w) raw mail hraw hmail
    have hsave := SaveMail_ok lib env { mail with Header := mailHeader }
      { gets := (emit (Event.println mailHeader.Subject) w).gets + 1,
        trace := (emit (Event.println mailHeader.Subject) w).trace ++
          [Event.get (mailUrl char mailHeader) ("Bearer " ++ auth.AccessToken)] }
      markdownBody (hcreate _ _) hmd
    obtain ⟨w1, hrun⟩ := ih
      { gets := (emit (Event.println mailHeader.Subject) w).gets + 1,
        trace := ((emit (Event.println mailHeader.Subject) w).trace ++
          [Event.get (mailUrl char mailHeader) ("Bearer " ++ auth.AccessToken)]) ++
          Event.create (mailPath mailHeader) ::
            (mailWrites { mail with Header := mailHeader } markdownBody).map
              (Event.writeString (mailPath mailHeader)) }
      (fun k url hk => hget k url (Nat.le_of_succ_le hk))
    refine ⟨w1, ?_⟩
    rw [mainLoop]
    simp only [hfetch, hsave]
    exact hrun

/-- C6: the code creates the directory `eve-mail` but writes its files under
`mail`.  For the header with id 42 and the time 2024-01-01T00:00:00Z the file is
`mail/2024-01-01T00:00:00Z 42.txt`, whose directory is not the one `main` made,
and on a disk that starts empty the run ends in a panic at the first
`os.Create`, having made `eve-mail` and written no file. -/
theorem C6_directory_made_is_not_directory_written :
    mailPath (hdr 42) = "mail/2024-01-01T00:00:00Z 42.txt" ∧
    parentDir (mailPath (hdr 42)) = "mail" ∧ mailDir = "eve-mail" ∧
    parentDir (mailPath (hdr 42)) ≠ mailDir ∧
    ∃ w1,
      main demoLib (freshDiskEnv ["char", "[42]", "[]", "mail"]) 2 =
        some (Res.panic "open mail/2024-01-01T00:00:00Z 42.txt: no such file or directory", w1) ∧
      Event.mkdirAll "eve-mail" ∈ w1.trace ∧
      w1.trace.filter (fun e => e matches Event.create _) = [] := by
  refine ⟨by decide, by decide, rfl, by decide, _, rfl, by decide, by decide⟩

/-- C7 as stated fails on its own scenario: the file written for the mail with
subject Hi, sender 900 and time 2024-01-01T00:00:00Z has the lines Hi, 900,
`2024-01-01 00:00:00 +0000 UTC`, `---`, an empty line and `**hello**`; the
string `2024-01-01T00:00:00Z` is the time in the name of the file, not a line
of its content. -/
theorem C7_timestamp_line_counterexample :
    ∃ w1,
      SaveMail demoLib archiveEnv demoMail { gets := 0, trace := [] } = (Res.ok (), w1) ∧
      linesOf (fileContent "mail/2024-01-01T00:00:00Z 42.txt" w1.trace "") =
        ["Hi", "900", "2024-01-01 00:00:00 +0000 UTC", "---", "", "**hello**"] ∧
      "2024-01-01T00:00:00Z" ∉
        linesOf (fileContent "mail/2024-01-01T00:00:00Z 42.txt" w1.trace "") := by
  refine ⟨_, rfl, by decide, by decide⟩

/-- C7, amended: when the file can be created and the converter turns the body
into `markdownBody`, `SaveMail` creates the file and leaves in it, in order, the
subject, a line feed, the sender id in decimal, a line feed, the time in the
layout of `Time.String`, the separator `---` between line feeds followed by an
empty line, and `markdownBody`. -/
theorem SaveMail_content (lib : Lib) (env : Env) (mail : Mail) (w : World)
    (markdownBody before : String)
    (hcreate : env.create w.trace (mailPath mail.Header) = none)
    (hconv : lib.convertString mail.Body = Except.ok markdownBody) :
    ∃ w1, SaveMail lib env mail w = (Res.ok (), w1) ∧
      fileContent (mailPath mail.Header) w1.trace before =
        "" ++ mail.Subject ++ "\n" ++ fmtD mail.Header.From ++ "\n" ++
          timeString mail.Header.Time ++ "\n---\n\n" ++ markdownBody := by
  refine ⟨_, SaveMail_ok lib env mail w markdownBody hcreate hconv, ?_⟩
  simp only [fileContent_append, mailWrites, List.map, fileContent, if_true]

/-- C7, amended, on the scenario of the specification. -/
theorem SaveMail_content_witness :
    ∃ w1, SaveMail demoLib archiveEnv demoMail { gets := 0, trace := [] } = (Res.ok (), w1) ∧
      fileContent (mailPath demoMail.Header) w1.trace "" =
        "Hi\n900\n2024-01-01 00:00:00 +0000 UTC\n---\n\n**hello**" := by
  obtain ⟨w1, h1, h2⟩ := SaveMail_content demoLib archiveEnv demoMail { gets := 0, trace := [] }
    "**hello**" "" rfl rfl
  refine ⟨w1, h1, ?_⟩
  rw [h2]
  decide

/-- A call of `GetMail` that returns has sent one request and returns what the
reply decodes to, with the header it was given attached. -/
theorem GetMail_returns (lib : Lib) (env : Env) (auth : Authentication) (char : Character)
    (mailHeader : MailHeader) (w w2 : World) (mail : Mail)
    (h : GetMail lib env auth char mailHeader w = (Res.ok mail, w2)) :
    (∃ raw m0, env.get w.gets (mailUrl char mailHeader) auth.AccessToken = Except.ok raw ∧
      lib.unmarshalMail raw = Except.ok m0 ∧ mail = { m0 with Header := mailHeader }) ∧
      w2 = { gets := w.gets + 1,
             trace := w.trace ++
               [Event.get (mailUrl char mailHeader) ("Bearer " ++ auth.AccessToken)] } := by
  unfold GetMail getEsi at h
  cases hg : env.get w.gets (mailUrl char mailHeader) auth.AccessToken with
  | error e => simp [hg] at h
  | ok raw =>
    cases hd : lib.unmarshalMail raw with
    | error e => simp [hg, hd] at h
    | ok m =>
      simp only [hg, hd, Prod.mk.injEq, Res.ok.injEq] at h
      obtain ⟨h1, h2⟩ := h
      exact ⟨⟨raw, m, rfl, hd, h1.symm⟩, h2.symm⟩

/-- A call of `SaveMail` that returns has converted the body, created the file
of the header and written the seven pieces of its content, and nothing else. -/
theorem SaveMail_returns (lib : Lib) (env : Env) (mail : Mail) (w w3 : World) (u : Unit)
    (h : SaveMail lib env mail w = (Res.ok u, w3)) :
    ∃ markdownBody, lib.convertString mail.Body = Except.ok markdownBody ∧
      w3 = { gets := w.gets,
             trace := w.trace ++ Event.create (mailPath mail.Header) ::
               (mailWrites mail markdownBody).map (Event.writeString (mailPath mail.Header)) } := by
  unfold SaveMail at h
  cases hc : env.create w.trace (mailPath mail.Header) with
  | some e => simp [hc] at h
  | none =>
    cases hm : lib.convertString mail.Body with
    | error e => simp [hc, hm] at h
    | ok markdownBody =>
      simp only [hc, hm, Prod.mk.injEq, true_and] at h
      subst h
      exact ⟨markdownBody, rfl, by simp [emit]⟩

/-- The list of cycles has one cycle per header, in the order of the headers. -/
theorem Cycles_headers (lib : Lib) (env : Env) (auth : Authentication) (char : Character) :
    ∀ (mailHeaders : List MailHeader) (k : Nat) (cycles : List (Mail × String)),
      Cycles lib env auth char k mailHeaders cycles →
      cycles.map (fun c => c.1.Header) = mailHeaders := by
  intro mailHeaders
  induction mailHeaders with
  | nil =>
    intro k cycles h
    cases cycles with
    | nil => rfl
    | cons c cs => exact absurd h (by simp [Cycles])
  | cons hd rest ih =>
    intro k cycles h
    cases cycles with
    | nil => exact absurd h (by simp [Cycles])
    | cons c cs =>
      simp only [Cycles] at h
      obtain ⟨⟨raw, m0, _, _, hc⟩, _, hrest⟩ := h
      simp only [List.map_cons, ih (k + 1) cs hrest, hc]

/-- Whenever the loop of `main` ends normally, it has run one full cycle per
header, in order, and nothing else. -/
theorem mainLoop_returns (lib : Lib) (env : Env) (auth : Authentication) (char : Character) :
    ∀ (mailHeaders : List MailHeader) (w w1 : World),
      mainLoop lib env auth char mailHeaders w = (Res.ok (), w1) →
      w1.gets = w.gets + mailHeaders.length ∧
        ∃ cycles, Cycles lib env auth char w.gets mailHeaders cycles ∧
          w1.trace = w.trace ++ cycles.flatMap (cycleEvents auth char) := by
  intro mailHeaders
  induction mailHeaders with
  | nil =>
    intro w w1 h
    simp only [mainLoop, Prod.mk.injEq, true_and] at h
    subst h
    exact ⟨rfl, [], trivial, by simp⟩
  | cons mailHeader rest ih =>
    intro w w1 h
    rw [mainLoop] at h
    cases hf : GetMail lib env auth char mailHeader (emit (Event.println mailHeader.Subject) w) with
    | mk r w2 =>
      cases r with
      | panic e => simp [hf] at h
      | fatal e => simp [hf] at h
      | ok mail =>
        obtain ⟨⟨raw, m0, hraw, hdec, hmail⟩, hw2⟩ :=
          GetMail_returns lib env auth char mailHeader _ w2 mail hf
        cases hs : SaveMail lib env mail w2 with
        | mk r3 w3 =>
          cases r3 with
          | panic e => simp [hf, hs] at h
          | fatal e => simp [hf, hs] at h
          | ok u =>
            simp only [hf, hs] at h
            obtain ⟨markdownBody, hmd, hw3⟩ := SaveMail_returns lib env mail w2 w3 u hs
            obtain ⟨hg1, cycles, hcyc, ht1⟩ := ih w3 w1 h
            have hhdr : mail.Header = mailHeader := by rw [hmail]
            have hg3 : w3.gets = w.gets + 1 := by rw [hw3, hw2]; rfl
            refine ⟨?_, (mail, markdownBody) :: cycles, ?_, ?_⟩
            · rw [hg1, hg3]
              simp only [List.length_cons]
              omega
            · simp only [Cycles]
              refine ⟨⟨raw, m0, hraw, hdec, hmail⟩, hmd, ?_⟩
              rw [hg3] at hcyc
              exact hcyc
            · rw [ht1, hw3, hw2]
              simp [cycleEvents, emit, hhdr]

/-- A call of `GetMail` that does not return a mail has sent the request and, at
most, printed the reply. -/
theorem GetMail_fails (lib : Lib) (env : Env) (auth : Authentication) (char : Character)
    (mailHeader : MailHeader) (w w2 : World) (r : Res Mail)
    (h : GetMail lib env auth char mailHeader w = (r, w2)) (hr : ∀ mail, r ≠ Res.ok mail) :
    w2.trace = w.trace ++
        [Event.get (mailUrl char mailHeader) ("Bearer " ++ auth.AccessToken)] ∨
      ∃ raw, w2.trace = w.trace ++
        [Event.get (mailUrl char mailHeader) ("Bearer " ++ auth.AccessToken),
          Event.println raw] := by
  unfold GetMail getEsi at h
  cases hg : env.get w.gets (mailUrl char mailHeader) auth.AccessToken with
  | error e =>
    simp only [hg, Prod.mk.injEq] at h
    exact Or.inl (by rw [← h.2])
  | ok raw =>
    cases hd : lib.unmarshalMail raw with
    | error e =>
      simp only [hg, hd, Prod.mk.injEq] at h
      exact Or.inr ⟨raw, by rw [← h.2]; simp [emit]⟩
    | ok m =>
      simp only [hg, hd, Prod.mk.injEq] at h
      exact absurd h.1.symm (hr _)

/-- A call of `SaveMail` that does not return has either changed nothing or
created the file and failed to convert the body. -/
theorem SaveMail_fails (lib : Lib) (env : Env) (mail : Mail) (w w3 : World) (r : Res Unit)
    (h : SaveMail lib env mail w = (r, w3)) (hr : r ≠ Res.ok ()) :
    w3.trace = w.trace ∨
      ∃ err, w3.trace = w.trace ++ [Event.create (mailPath mail.Header), Event.logFatal err] := by
  unfold SaveMail at h
  cases hc : env.create w.trace (mailPath mail.Header) with
  | some e =>
    simp only [hc, Prod.mk.injEq] at h
    exact Or.inl (by rw [← h.2])
  | none =>
    cases hm : lib.convertString mail.Body with
    | error e =>
      simp only [hc, hm, Prod.mk.injEq] at h
      exact Or.inr ⟨e, by rw [← h.2]; simp [emit]⟩
    | ok markdownBody =>
      simp only [hc, hm, Prod.mk.injEq] at h
      exact absurd h.1.symm hr

/-- Whenever the loop of `main` does not end normally, it has run full cycles
for the first headers of the list, in order, and the cycle of the next header
was cut short. -/
theorem mainLoop_fails (lib : Lib) (env : Env) (auth : Authentication) (char : Character) :
    ∀ (mailHeaders : List MailHeader) (w w1 : World) (r : Res Unit),
      mainLoop lib env auth char mailHeaders w = (r, w1) → r ≠ Res.ok () →
      ∃ j cycles h tail, mailHeaders[j]? = some h ∧
        Cycles lib env auth char w.gets (mailHeaders.take j) cycles ∧
        CutShort auth char h tail ∧
        w1.trace = w.trace ++ (cycles.flatMap (cycleEvents auth char) ++ tail) := by
  intro mailHeaders
  induction mailHeaders with
  | nil =>
    intro w w1 r h hr
    simp only [mainLoop, Prod.mk.injEq] at h
    exact absurd h.1.symm hr
  | cons mailHeader rest ih =>
    intro w w1 r h hr
    rw [mainLoop] at h
    cases hf : GetMail lib env auth char mailHeader (emit (Event.println mailHeader.Subject) w) with
    | mk rf w2 =>
      have hcut : (∀ mail, rf ≠ Res.ok mail) → w1 = w2 →
          ∃ j cycles h tail, (mailHeader :: rest)[j]? = some h ∧
            Cycles lib env auth char w.gets ((mailHeader :: rest).take j) cycles ∧
            CutShort auth char h tail ∧
            w1.trace = w.trace ++ (cycles.flatMap (cycleEvents auth char) ++ tail) := by
        intro hrf hw12
        rcases GetMail_fails lib env auth char mailHeader _ w2 rf hf hrf with ht | ⟨raw, ht⟩
        · exact ⟨0, [], mailHeader, _, List.getElem?_cons_zero, trivial, Or.inl rfl, by
            rw [hw12, ht]; simp [emit]⟩
        · exact ⟨0, [], mailHeader, _, List.getElem?_cons_zero, trivial, Or.inr (Or.inl ⟨raw, rfl⟩), by
            rw [hw12, ht]; simp [emit]⟩
      cases rf with
      | panic e =>
        simp only [hf] at h
        exact hcut (fun _ => by simp) (Prod.mk.inj h).2.symm
      | fatal e =>
        simp only [hf] at h
        exact hcut (fun _ => by simp) (Prod.mk.inj h).2.symm
      | ok mail =>
        obtain ⟨⟨raw, m0, hraw, hdec, hmail⟩, hw2⟩ :=
          GetMail_returns lib env auth char mailHeader _ w2 mail hf
        have hhdr : mail.Header = mailHeader := by rw [hmail]
        cases hs : SaveMail lib env mail w2 with
        | mk r3 w3 =>
          have hstop : r3 ≠ Res.ok () → w1 = w3 →
              ∃ j cycles h tail, (mailHeader :: rest)[j]? = some h ∧
                Cycles lib env auth char w.gets ((mailHeader :: rest).take j) cycles ∧
                CutShort auth char h tail ∧
                w1.trace = w.trace ++ (cycles.flatMap (cycleEvents auth char) ++ tail) := by
            intro hr3 hw13
            rcases SaveMail_fails lib env mail w2 w3 r3 hs hr3 with ht | ⟨err, ht⟩
            · exact ⟨0, [], mailHeader, _, List.getElem?_cons_zero, trivial, Or.inl rfl, by
                rw [hw13, ht, hw2]; simp [emit]⟩
            · exact ⟨0, [], mailHeader, _, List.getElem?_cons_zero, trivial, Or.inr (Or.inr ⟨err, rfl⟩), by
                rw [hw13, ht, hw2, hhdr]; simp [emit]⟩
          cases r3 with
          | panic e =>
            simp only [hf, hs, Prod.mk.injEq] at h
            exact hstop (by simp) h.2.symm
          | fatal e =>
            simp only [hf, hs, Prod.mk.injEq] at h
            exact hstop (by simp) h.2.symm
          | ok u =>
            simp only [hf, hs] at h
            obtain ⟨markdownBody, hmd, hw3⟩ := SaveMail_returns lib env mail w2 w3 u hs
            have hg3 : w3.gets = w.gets + 1 := by rw [hw3, hw2]; rfl
            obtain ⟨j, cycles, hj, tail, hget, hcyc, hshort, ht1⟩ := ih w3 w1 r h hr
            refine ⟨j + 1, (mail, markdownBody) :: cycles, hj, tail, ?_, ?_, hshort, ?_⟩
            · simpa using hget
            · simp only [List.take_succ_cons, Cycles]
              refine ⟨⟨raw, m0, hraw, hdec, hmail⟩, hmd, ?_⟩
              rw [hg3] at hcyc
              exact hcyc
            · rw [ht1, hw3, hw2]
              simp [cycleEvents, emit, hhdr]

/-- C8: let login and character lookup succeed and let `GetMailHeaders` return
the list `mailHeaders`.  Whenever `main` then ends normally, it has sent one mail
request per header, and everything it did after pagination is to make the
directory and then, header by header in the order of the list, to run one full
cycle: print the subject, fetch the mail of that header, create its file and
write the converted mail to it (nothing for the empty list).  Whenever `main`
does not end normally, it has either done nothing after pagination (the
directory could not be made) or made the directory, run full cycles for the
first headers of the list in order and been cut short in the cycle of the next
header.  And `main` does end normally when the directory can be made and every
fetch and archive step succeeds. -/
theorem main_one_fetch_then_archive_per_header (lib : Lib) (env : Env) (fuel : Nat)
    (auth : Authentication) (char : Character) (mailHeaders : List MailHeader)
    (w1 w2 w3 : World)
    (hlogin : Login lib env { gets := 0, trace := [] } = (Res.ok auth, w1))
    (hchar : GetCharacter lib env auth w1 = (Res.ok char, w2))
    (hlist : GetMailHeaders lib env auth char fuel w2 = some (Res.ok mailHeaders, w3)) :
    (∀ w4, main lib env fuel = some (Res.ok (), w4) →
      w4.gets = w3.gets + mailHeaders.length ∧
      ∃ cycles, Cycles lib env auth char w3.gets mailHeaders cycles ∧
        cycles.map (fun c => c.1.Header) = mailHeaders ∧
        w4.trace = w3.trace ++
          Event.mkdirAll mailDir :: cycles.flatMap (cycleEvents auth char)) ∧
    (∀ r w4, main lib env fuel = some (r, w4) → r ≠ Res.ok () →
      w4 = w3 ∨
      ∃ j cycles h tail, mailHeaders[j]? = some h ∧
        Cycles lib env auth char w3.gets (mailHeaders.take j) cycles ∧
        CutShort auth char h tail ∧
        w4.trace = w3.trace ++
          Event.mkdirAll mailDir :: (cycles.flatMap (cycleEvents auth char) ++ tail)) ∧
    (env.mkdirAll w3.trace mailDir = none →
      (∀ k url, w3.gets ≤ k → ∃ raw mail,
        env.get k url auth.AccessToken = Except.ok raw ∧ lib.unmarshalMail raw = Except.ok mail) →
      (∀ trace path, env.create trace path = none) →
      (∀ body, ∃ markdownBody, lib.convertString body = Except.ok markdownBody) →
      ∃ w4, main lib env fuel = some (Res.ok (), w4)) := by
  have hmain : main lib env fuel = some (mainArchive lib env auth char mailHeaders w3) := by
    unfold main
    simp only [hlogin, hchar, hlist]
  refine ⟨?_, ?_, ?_⟩
  · intro w4 h4
    rw [hmain] at h4
    have h5 := Option.some.inj h4
    unfold mainArchive at h5
    cases hm : env.mkdirAll w3.trace mailDir with
    | some e => simp [hm] at h5
    | none =>
      simp only [hm] at h5
      obtain ⟨hg, cycles, hcyc, ht⟩ := mainLoop_returns lib env auth char mailHeaders _ w4 h5
      refine ⟨hg, cycles, hcyc, Cycles_headers lib env auth char mailHeaders _ cycles hcyc, ?_⟩
      rw [ht]
      simp [emit]
  · intro r w4 h4 hr
    rw [hmain] at h4
    have h5 := Option.some.inj h4
    unfold mainArchive at h5
    cases hm : env.mkdirAll w3.trace mailDir with
    | some e =>
      simp only [hm, Prod.mk.injEq] at h5
      exact Or.inl h5.2.symm
    | none =>
      simp only [hm] at h5
      obtain ⟨j, cycles, h, tail, hj, hcyc, hshort, ht⟩ :=
        mainLoop_fails lib env auth char mailHeaders _ w4 r h5 hr
      refine Or.inr ⟨j, cycles, h, tail, hj, hcyc, hshort, ?_⟩
      rw [ht]
      simp [emit]
  · intro hmkdir hget hcreate hconv
    obtain ⟨w4, hrun⟩ := mainLoop_cycles lib env auth char hcreate hconv mailHeaders
      (emit (Event.mkdirAll mailDir) w3) hget
    refine ⟨w4, ?_⟩
    rw [hmain]
    simp only [mainArchive, hmkdir]
    rw [hrun]

/-- C8 on a run that lists the headers 5 and 3: it ends normally after two
cycles, first for 5, then for 3, each a fetch followed by the creation and the
seven writes of the file. -/
theorem main_one_fetch_then_archive_per_header_witness :
    ∃ w4, main demoLib archiveEnv 2 = some (Res.ok (), w4) ∧ w4.gets = 3 + 2 ∧
      (∃ cycles, Cycles demoLib archiveEnv demoAuth demoChar 3 [hdr 5, hdr 3] cycles ∧
        cycles.map (fun c => c.1.Header) = [hdr 5, hdr 3] ∧
        w4.trace.drop 7 =
          Event.mkdirAll mailDir :: cycles.flatMap (cycleEvents demoAuth demoChar)) ∧
      w4.trace.drop 7 =
        [Event.mkdirAll "eve-mail",
          Event.println "Hi",
          Event.get "https://esi.evetech.net/latest/characters/7/mail/5/" "Bearer A",
          Event.create "mail/2024-01-01T00:00:00Z 5.txt",
          Event.writeString "mail/2024-01-01T00:00:00Z 5.txt" "Hi",
          Event.writeString "mail/2024-01-01T00:00:00Z 5.txt" "\n",
          Event.writeString "mail/2024-01-01T00:00:00Z 5.txt" "900",
          Event.writeString "mail/2024-01-01T00:00:00Z 5.txt" "\n",
          Event.writeString "mail/2024-01-01T00:00:00Z 5.txt" "2024-01-01 00:00:00 +0000 UTC",
          Event.writeString "mail/2024-01-01T00:00:00Z 5.txt" "\n---\n\n",
          Event.writeString "mail/2024-01-01T00:00:00Z 5.txt" "**hello**",
          Event.println "Hi",
          Event.get "https://esi.evetech.net/latest/characters/7/mail/3/" "Bearer A",
          Event.create "mail/2024-01-01T00:00:00Z 3.txt",
          Event.writeString "mail/2024-01-01T00:00:00Z 3.txt" "Hi",
          Event.writeString "mail/2024-01-01T00:00:00Z 3.txt" "\n",
          Event.writeString "mail/2024-01-01T00:00:00Z 3.txt" "900",
          Event.writeString "mail/2024-01-01T00:00:00Z 3.txt" "\n",
          Event.writeString "mail/2024-01-01T00:00:00Z 3.txt" "2024-01-01 00:00:00 +0000 UTC",
          Event.writeString "mail/2024-01-01T00:00:00Z 3.txt" "\n---\n\n",
          Event.writeString "mail/2024-01-01T00:00:00Z 3.txt" "**hello**"] := by
  have h := main_one_fetch_then_archive_per_header demoLib archiveEnv 2
    demoAuth demoChar [hdr 5, hdr 3] _ _ _ rfl rfl rfl
  obtain ⟨w4, h4⟩ := h.2.2 rfl
    (by
      intro k url hk
      obtain ⟨j, rfl⟩ : ∃ j, k = j + 3 := ⟨k - 3, by simp at hk; omega⟩
      exact ⟨"mail", _, rfl, rfl⟩)
    (fun _ _ => rfl)
    (by
      intro body
      by_cases hb : body = "<b>hello</b>"
      · exact ⟨"**hello**", by simp [demoLib, hb]⟩
      · exact ⟨body, by simp [demoLib, hb]⟩)
  obtain ⟨h2, cycles, hcyc, hhdrs, htrace⟩ := h.1 w4 h4
  have hconcrete : (main demoLib archiveEnv 2).map (fun r => r.2.trace.drop 7) =
      some [Event.mkdirAll "eve-mail",
          Event.println "Hi",
          Event.get "https://esi.evetech.net/latest/characters/7/mail/5/" "Bearer A",
          Event.create "mail/2024-01-01T00:00:00Z 5.txt",
          Event.writeString "mail/2024-01-01T00:00:00Z 5.txt" "Hi",
          Event.writeString "mail/2024-01-01T00:00:00Z 5.txt" "\n",
          Event.writeString "mail/2024-01-01T00:00:00Z 5.txt" "900",
          Event.writeString "mail/2024-01-01T00:00:00Z 5.txt" "\n",
          Event.writeString "mail/2024-01-01T00:00:00Z 5.txt" "2024-01-01 00:00:00 +0000 UTC",
          Event.writeString "mail/2024-01-01T00:00:00Z 5.txt" "\n---\n\n",
          Event.writeString "mail/2024-01-01T00:00:00Z 5.txt" "**hello**",
          Event.println "Hi",
          Event.get "https://esi.evetech.net/latest/characters/7/mail/3/" "Bearer A",
          Event.create "mail/2024-01-01T00:00:00Z 3.txt",
          Event.writeString "mail/2024-01-01T00:00:00Z 3.txt" "Hi",
          Event.writeString "mail/2024-01-01T00:00:00Z 3.txt" "\n",
          Event.writeString "mail/2024-01-01T00:00:00Z 3.txt" "900",
          Event.writeString "mail/2024-01-01T00:00:00Z 3.txt" "\n",
          Event.writeString "mail/2024-01-01T00:00:00Z 3.txt" "2024-01-01 00:00:00 +0000 UTC",
          Event.writeString "mail/2024-01-01T00:00:00Z 3.txt" "\n---\n\n",
          Event.writeString "mail/2024-01-01T00:00:00Z 3.txt" "**hello**"] := by
    decide
  rw [h4] at hconcrete
  refine ⟨w4, h4, h2, ⟨cycles, hcyc, hhdrs, ?_⟩, Option.some.inj hconcrete⟩
  rw [htrace]
  exact List.drop_left' rfl

/-! ## Failures: claims C9 and C10 -/

/-- C9 as stated fails: the error object of the token endpoint does not have
the shape with `access_token` and `refresh_token`, yet it decodes without
error, so `Authenticate` returns a credential with empty tokens and the run goes
on: it sends two GET requests and makes the directory `eve-mail`. -/
theorem C9_error_object_accepted_counterexample :
    (Authenticate demoLib (seqEnv oauthErrorBody ["char", "[]"]) "code"
        { gets := 0, trace := [] }).1 =
      Res.ok { AccessToken := "", RefreshToken := "" } ∧
    ∃ w1, main demoLib (seqEnv oauthErrorBody ["char", "[]"]) 1 = some (Res.ok (), w1) ∧
      w1.gets = 2 ∧
      listFetchArchiveEvents w1.trace =
        [Event.get "https://login.eveonline.com/oauth/verify" "Bearer ",
          Event.get "https://esi.evetech.net/latest/characters/7/mail/" "Bearer ",
          Event.mkdirAll "eve-mail"] := by
  refine ⟨by decide, _, rfl, by decide, by decide⟩

/-- C9, amended: when `json.Unmarshal` returns an error on the body the token
endpoint returns, `Authenticate` panics with that error instead of returning,
and `main` ends with that panic, whatever the fuel, without having sent any GET
request, made any directory, or created or written any file. -/
theorem main_aborts_on_malformed_token (lib : Lib) (env : Env) (fuel : Nat) (raw err : String)
    (hpost : env.post tokenUrl (tokenRequestBody env.authCode) = Except.ok raw)
    (hbad : lib.unmarshalAuthentication raw = Except.error err) :
    (∀ w, (Authenticate lib env env.authCode w).1 = Res.panic err) ∧
    ∃ w1, main lib env fuel = some (Res.panic err, w1) ∧ w1.gets = 0 ∧
      listFetchArchiveEvents w1.trace = [] := by
  have hauth : ∀ w, Authenticate lib env env.authCode w =
      (Res.panic err, emit (Event.post tokenUrl (tokenRequestBody env.authCode)) w) := by
    intro w
    unfold Authenticate
    simp [hpost, hbad]
  refine ⟨fun w => by rw [hauth w],
    emit (Event.post tokenUrl (tokenRequestBody env.authCode))
      (emit (Event.println env.authCode)
        (emit (Event.println authorizeUrl)
          (emit (Event.println welcomeText) { gets := 0, trace := [] }))),
    ?_, ?_, ?_⟩
  · unfold main Login start_callback_server
    simp only [hauth]
  · rfl
  · simp [listFetchArchiveEvents, emit]

/-- C9, amended, on a token endpoint that answers `oops`. -/
theorem main_aborts_on_malformed_token_witness :
    (∀ w, (Authenticate demoLib (seqEnv "oops" []) "code" w).1 = Res.panic "invalid character") ∧
    ∃ w1, main demoLib (seqEnv "oops" []) 0 = some (Res.panic "invalid character", w1) ∧
      w1.gets = 0 ∧ listFetchArchiveEvents w1.trace = [] :=
  main_aborts_on_malformed_token demoLib (seqEnv "oops" []) 0 "oops" "invalid character" rfl rfl

/-- C10: `GetMailHeaders` and `GetMail` print the payload they cannot decode
before they panic, but `Authenticate` and `GetCharacter` do not: on the
malformed payload `oops` they panic and `oops` has not been printed. -/
theorem C10_payload_printed_only_by_list_and_mail :
    (∃ w1, Authenticate demoLib (seqEnv "oops" []) "code" { gets := 0, trace := [] } =
        (Res.panic "invalid character", w1) ∧ "oops" ∉ printed w1.trace) ∧
    (∃ w1, GetCharacter demoLib (seqEnv "tok" ["oops"]) demoAuth { gets := 0, trace := [] } =
        (Res.panic "invalid character", w1) ∧ "oops" ∉ printed w1.trace) ∧
    (∃ w1, GetMailHeaders demoLib (seqEnv "tok" ["oops"]) demoAuth demoChar 1
          { gets := 0, trace := [] } =
        some (Res.panic "invalid character", w1) ∧ printed w1.trace = ["oops"]) ∧
    (∃ w1, GetMail demoLib (seqEnv "tok" ["oops"]) demoAuth demoChar (hdr 42)
          { gets := 0, trace := [] } =
        (Res.panic "invalid character", w1) ∧ printed w1.trace = ["oops"]) := by
  refine ⟨⟨_, rfl, by decide⟩, ⟨_, rfl, by decide⟩, ⟨_, rfl, by decide⟩, ⟨_, rfl, by decide⟩⟩

end EveMailBackup
